import Mathlib

/-!
Verification of the EDMC_SphereSurvey plugin core (`load.py`).

Modelling conventions, used consistently below:

* Python floats are modelled by `ℚ` (exact arithmetic; the claims under
  study are not about floating-point rounding).
* Every Euclidean distance the code computes with `math.sqrt` is modelled
  by its square.  Since `Real.sqrt` is strictly monotone on nonnegatives,
  every comparison `sqrt d <= r` performed by the code is equivalent to
  `0 ≤ r ∧ d ≤ r ^ 2` (the definition `sqLe` below), and sorting by
  distance coincides with sorting by squared distance.  In particular the
  `distance` field of `SystemNode` stores the squared distance.
* Python truthiness tests on optionals (`if system_id:`, `if max_jump_ly:`,
  `if not _current_system:`) are modelled by the explicit `truthy...`
  helpers: `None`, `0` and the empty string are falsy.
* `list.sort(key=...)` is Timsort, a stable ascending sort; it is modelled
  by Mathlib's `List.insertionSort`, which is also stable, and therefore
  extensionally identical on every input.
-/

namespace SphereSurvey

/-- A star system record (`SystemNode` dataclass in `load.py`).  The
`distance` field stores the *squared* distance from the reference point
(the source stores the distance itself; see the module conventions). -/
structure SystemNode where
  name : String
  id64 : Option Int
  x : ℚ
  y : ℚ
  z : ℚ
  distance : ℚ
deriving DecidableEq, Repr

/-- Python truthiness of an optional integer: `None` and `0` are falsy. -/
def truthyInt : Option Int → Bool
  | none => false
  | some i => i != 0

/-- Python truthiness of an optional string: `None` and `""` are falsy. -/
def truthyStr : Option String → Bool
  | none => false
  | some s => s != ""

/-- Python truthiness of an optional float: `None` and `0.0` are falsy. -/
def truthyQ : Option ℚ → Bool
  | none => false
  | some q => q != 0

/-- Squared Euclidean distance between `(x,y,z)` and `(sx,sy,sz)`; the code
computes `math.sqrt(dx*dx + dy*dy + dz*dz)`. -/
def sqDist (x y z sx sy sz : ℚ) : ℚ :=
  (sx - x) ^ 2 + (sy - y) ^ 2 + (sz - z) ^ 2

/-- `sqLe d r` models `sqrt d <= r` for `0 ≤ d`: it holds iff `0 ≤ r` and
`d ≤ r ^ 2`. -/
def sqLe (d r : ℚ) : Bool :=
  decide (0 ≤ r) && decide (d ≤ r ^ 2)

/-- The mutable session record (`SurveyState` dataclass in `load.py`).
`all_systems` is a Python `dict` in insertion order, modelled as an
association list. -/
structure SurveyState where
  active : Bool
  start_system : Option String
  start_coords : Option (ℚ × ℚ × ℚ)
  radius_ly : ℚ
  max_jump_ly : Option ℚ
  prefer_short_jumps : Bool
  pending_systems : List SystemNode
  visited_ids : Finset Int
  visited_names : Finset String
  all_systems : List (String × SystemNode)
  started_ts : Option ℚ
  data_source_used : Option String
deriving DecidableEq

/-- `SurveyState.reset` in `load.py`: clears the session fields; note that
`radius_ly`, `max_jump_ly` and `prefer_short_jumps` are left as they are,
exactly as in the source. -/
def SurveyState.reset (st : SurveyState) : SurveyState :=
  { st with
    active := false
    start_system := none
    start_coords := none
    pending_systems := []
    visited_ids := ∅
    visited_names := ∅
    all_systems := []
    started_ts := none
    data_source_used := none }

/-- The dataclass defaults of `SurveyState`. -/
def initialState : SurveyState :=
  { active := false
    start_system := none
    start_coords := none
    radius_ly := 50
    max_jump_ly := none
    prefer_short_jumps := true
    pending_systems := []
    visited_ids := ∅
    visited_names := ∅
    all_systems := []
    started_ts := none
    data_source_used := none }

/-- `_mark_visited(system_name, system_id)` from `load.py`: adds the id to
`visited_ids` when truthy, adds the name to `visited_names`, and keeps a
pending entry only when its name differs from `system_name` and (`system_id`
falsy or its `id64` differs from `system_id`). -/
def markVisited (st : SurveyState) (system_name : String) (system_id : Option Int) :
    SurveyState :=
  let vids :=
    match system_id with
    | some i => if i != 0 then insert i st.visited_ids else st.visited_ids
    | none => st.visited_ids
  { st with
    visited_ids := vids
    visited_names := insert system_name st.visited_names
    pending_systems := st.pending_systems.filter fun s =>
      !decide (s.name = system_name) &&
        (!truthyInt system_id || !decide (s.id64 = system_id)) }

/-- C5: the visit operation is idempotent — applying `_mark_visited` twice
with identical arguments yields the same `SurveyState` as applying it once:
the second call adds nothing to the visited sets and removes nothing further
from the pending queue. -/
theorem c5_markVisited_idempotent (st : SurveyState) (n : String) (sid : Option Int) :
    markVisited (markVisited st n sid) n sid = markVisited st n sid := by
  unfold markVisited
  cases sid with
  | none =>
      simp only [List.filter_filter, Bool.and_self, Finset.insert_idem]
  | some i =>
      by_cases h : i = 0 <;>
        simp [h, List.filter_filter, Bool.and_self, Finset.insert_idem]

/-- Ascending stable sort by a rational-valued key: the model of Python's
stable `list.sort(key=...)`. -/
def sortByKey {α : Type} (key : α → ℚ) (l : List α) : List α :=
  l.insertionSort fun a b => key a ≤ key b

/-- The first element of a list achieving the minimal key — the head of any
stable ascending sort of the list. -/
def firstMin {α : Type} (key : α → ℚ) : List α → Option α
  | [] => none
  | a :: l =>
    match firstMin key l with
    | none => some a
    | some b => if key a ≤ key b then some a else some b

theorem sortByKey_head {α : Type} (key : α → ℚ) (l : List α) :
    (sortByKey key l).head? = firstMin key l := by
  induction l with
  | nil => rfl
  | cons a l ih =>
    show (List.orderedInsert _ a (sortByKey key l)).head? = _
    cases h : sortByKey key l with
    | nil =>
      have h0 : firstMin key l = none := by rw [← ih, h]; rfl
      simp [firstMin, h0, List.orderedInsert]
    | cons b t =>
      have h0 : firstMin key l = some b := by rw [← ih, h]; rfl
      simp only [firstMin, h0, List.orderedInsert]
      split <;> rfl

theorem firstMin_eq_none {α : Type} {key : α → ℚ} {l : List α} :
    firstMin key l = none ↔ l = [] := by
  cases l with
  | nil => simp [firstMin]
  | cons a l =>
    simp only [firstMin]
    cases firstMin key l with
    | none => simp
    | some b => simp only []; split <;> simp

theorem firstMin_mem {α : Type} {key : α → ℚ} {l : List α} {t : α}
    (h : firstMin key l = some t) : t ∈ l := by
  induction l with
  | nil => simp [firstMin] at h
  | cons a l ih =>
    cases h0 : firstMin key l with
    | none =>
      simp only [firstMin, h0] at h
      simp at h; simp [h]
    | some b =>
      simp only [firstMin, h0] at h
      split at h
      · simp at h; simp [h]
      · simp at h; exact List.mem_cons_of_mem _ (ih (h ▸ h0))

theorem firstMin_min {α : Type} {key : α → ℚ} {l : List α} :
    ∀ {t : α}, firstMin key l = some t → ∀ u ∈ l, key t ≤ key u := by
  induction l with
  | nil => intro t h; simp [firstMin] at h
  | cons a l ih =>
    intro t h
    cases h0 : firstMin key l with
    | none =>
      rw [firstMin_eq_none] at h0
      subst h0
      simp only [firstMin] at h
      simp at h
      simp [h]
    | some b =>
      simp only [firstMin, h0] at h
      intro u hu
      rcases List.mem_cons.mp hu with rfl | hu
      · split at h
        · simp at h; subst h; exact le_refl _
        · simp at h; subst h
          exact le_of_not_le (by assumption)
      · split at h
        · rename_i hab
          simp at h; subst h
          exact le_trans hab (ih h0 u hu)
        · simp at h; subst h
          exact ih h0 u hu

theorem firstMin_isSome {α : Type} (key : α → ℚ) {l : List α} (h : l ≠ []) :
    ∃ t, firstMin key l = some t := by
  cases hn : firstMin key l with
  | none => exact absurd (firstMin_eq_none.mp hn) h
  | some t => exact ⟨t, rfl⟩

theorem firstMin_earliest {α : Type} {key : α → ℚ} {l : List α} {t : α}
    (h : firstMin key l = some t) :
    ∃ i, l[i]? = some t ∧ ∀ u ∈ l.take i, key t < key u := by
  induction l with
  | nil => simp [firstMin] at h
  | cons a l ih =>
    cases h0 : firstMin key l with
    | none =>
      simp only [firstMin, h0] at h
      simp at h; subst h
      exact ⟨0, by simp, by simp⟩
    | some b =>
      simp only [firstMin, h0] at h
      split at h
      · simp at h; subst h
        exact ⟨0, by simp, by simp⟩
      · rename_i hab
        simp at h; subst h
        obtain ⟨i, hi, hpre⟩ := ih h0
        refine ⟨i + 1, by simpa using hi, ?_⟩
        intro u hu
        rw [List.take_succ_cons] at hu
        rcases List.mem_cons.mp hu with rfl | hu
        · exact lt_of_not_le hab
        · exact hpre u hu

/-- Membership is preserved by `sortByKey` (it is a permutation). -/
theorem mem_sortByKey {α : Type} {key : α → ℚ} {l : List α} {s : α} :
    s ∈ sortByKey key l ↔ s ∈ l := by
  unfold sortByKey
  exact List.mem_insertionSort _

/-- The squared distance of a system from the current position `c`
(`dist_from_current` in `_get_next_target`). -/
def distFromCurrentSq (c : ℚ × ℚ × ℚ) (s : SystemNode) : ℚ :=
  sqDist c.1 c.2.1 c.2.2 s.x s.y s.z

/-- The jump-range filtering step of `_get_next_target`: applied only when
`max_jump_ly` is truthy; `none` means the candidate list stays the live
queue. -/
def jumpFilter (st : SurveyState) (c : ℚ × ℚ × ℚ) : Option (List SystemNode) :=
  match st.max_jump_ly with
  | some m =>
    if m != 0 then
      some (st.pending_systems.filter fun s => sqLe (distFromCurrentSq c s) m)
    else none
  | none => none

/-- The candidate list `_get_next_target` sorts, together with a flag that
is `true` exactly when that list is the Python alias of the live
`pending_systems` (so that `candidates.sort()` mutates the queue). -/
def candidates (st : SurveyState) (c : ℚ × ℚ × ℚ) : List SystemNode × Bool :=
  match jumpFilter st c with
  | some fl => if fl.isEmpty then (st.pending_systems, true) else (fl, false)
  | none => (st.pending_systems, true)

/-- `_get_next_target()` from `load.py`.  Besides the chosen target it
returns the pending queue as it stands after the call, because
`candidates.sort(key=dist_from_current)` mutates the live queue in place
whenever `candidates` aliases it. -/
def getNextTarget (st : SurveyState) (cur : Option (ℚ × ℚ × ℚ)) :
    Option SystemNode × List SystemNode :=
  if st.pending_systems.isEmpty then (none, st.pending_systems)
  else
    match cur with
    | none => (none, st.pending_systems)
    | some c =>
      if st.prefer_short_jumps then
        let cs := candidates st c
        let sorted := sortByKey (distFromCurrentSq c) cs.1
        (sorted.head?, if cs.2 then sorted else st.pending_systems)
      else
        (st.pending_systems.head?, st.pending_systems)

theorem candidates_ne_nil {st : SurveyState} {c : ℚ × ℚ × ℚ}
    (hne : st.pending_systems ≠ []) : (candidates st c).1 ≠ [] := by
  unfold candidates
  cases hf : jumpFilter st c with
  | none => simpa using hne
  | some fl =>
    by_cases h : fl.isEmpty
    · simp [h, hne]
    · simp only [h]
      simp only [Bool.false_eq_true, if_false]
      simpa [List.isEmpty_iff] using h

/-- Under the nearest-to-current policy with a known position and a
non-empty queue, the chosen target is the first minimum (by squared
distance from the current position) of the candidate list. -/
theorem getNextTarget_fst (st : SurveyState) (c : ℚ × ℚ × ℚ)
    (hp : st.prefer_short_jumps = true) (hne : st.pending_systems ≠ []) :
    (getNextTarget st (some c)).1 = firstMin (distFromCurrentSq c) (candidates st c).1 := by
  simp only [getNextTarget, hp]
  rw [if_neg (by simpa [List.isEmpty_iff] using hne)]
  simp [sortByKey_head]

/-- C3: under the nearest-to-current policy, with an active session, a
known current position, a configured (truthy) jump-range cutoff and a
non-empty pending queue, if no pending system lies within the cutoff of
the current position then `_get_next_target` still returns a system — the
nearest one from the full unfiltered pending queue — never `none`. -/
theorem c3_fallback_unfiltered (st : SurveyState) (c : ℚ × ℚ × ℚ) (m : ℚ)
    (ha : st.active = true)
    (hp : st.prefer_short_jumps = true)
    (hm : st.max_jump_ly = some m) (hm0 : m ≠ 0)
    (hne : st.pending_systems ≠ [])
    (hfar : ∀ s ∈ st.pending_systems, sqLe (distFromCurrentSq c s) m = false) :
    ∃ t, (getNextTarget st (some c)).1 = some t ∧ t ∈ st.pending_systems ∧
      ∀ u ∈ st.pending_systems, distFromCurrentSq c t ≤ distFromCurrentSq c u := by
  have hfl : jumpFilter st c = some [] := by
    simp only [jumpFilter, hm]
    rw [if_pos (by simpa using hm0)]
    congr 1
    simpa [List.filter_eq_nil_iff] using hfar
  have hcs : candidates st c = (st.pending_systems, true) := by
    simp [candidates, hfl]
  obtain ⟨t, ht⟩ := firstMin_isSome (distFromCurrentSq c) hne
  refine ⟨t, ?_, firstMin_mem ht, firstMin_min ht⟩
  rw [getNextTarget_fst st c hp hne, hcs]
  exact ht

/-- A concrete node used in the C3 witness. -/
def farNode : SystemNode := ⟨"Faraway", some 21, 30, 0, 0, 900⟩

/-- A concrete state for the C3 witness: cutoff 20, single pending system
at squared distance 900 from the current position (0,0,0). -/
def stFar : SurveyState :=
  { initialState with
    active := true
    start_system := some "Sol"
    start_coords := some (0, 0, 0)
    max_jump_ly := some 20
    prefer_short_jumps := true
    pending_systems := [farNode]
    visited_names := {"Sol"} }

theorem c3_fallback_unfiltered_witness :
    ∃ t, (getNextTarget stFar (some (0, 0, 0))).1 = some t ∧
      t ∈ stFar.pending_systems ∧
      ∀ u ∈ stFar.pending_systems,
        distFromCurrentSq (0, 0, 0) t ≤ distFromCurrentSq (0, 0, 0) u :=
  c3_fallback_unfiltered stFar (0, 0, 0) 20 rfl rfl rfl (by decide) (by decide)
    (by with_unfolding_all decide)

/-- A concrete node used in the C4 counterexample. -/
def nodeA : SystemNode := ⟨"Alpha", some 11, 10, 0, 0, 100⟩

/-- A reachable-looking active session with a non-empty queue under the
queue-order policy, but with no known current position (e.g. a resumed
session before any location event). -/
def stNoCoords : SurveyState :=
  { initialState with
    active := true
    start_system := some "Sol"
    start_coords := some (0, 0, 0)
    prefer_short_jumps := false
    pending_systems := [nodeA]
    visited_names := {"Sol"} }

/-- C4 counterexample: with the queue-order policy, an active session and
a non-empty pending queue, `_get_next_target` returns `None` when the
current position is unknown — not the head of the queue as the claim
states (the guard `not _current_coords` fires first). -/
theorem c4_counterexample :
    stNoCoords.active = true ∧ stNoCoords.prefer_short_jumps = false ∧
    stNoCoords.pending_systems ≠ [] ∧
    stNoCoords.pending_systems.head? = some nodeA ∧
    (getNextTarget stNoCoords none).1 = none := by with_unfolding_all decide

/-- C4 amended: under the queue-order policy (prefer-short-jumps
disabled), for every active session with a non-empty pending queue *and a
known current position*, `_get_next_target` returns the first element of
`pending_systems`. -/
theorem c4_queue_order_head (st : SurveyState) (c : ℚ × ℚ × ℚ)
    (ha : st.active = true) (hp : st.prefer_short_jumps = false)
    (hne : st.pending_systems ≠ []) :
    (getNextTarget st (some c)).1 = st.pending_systems.head? := by
  simp only [getNextTarget, hp]
  rw [if_neg (by simpa [List.isEmpty_iff] using hne)]
  simp

theorem c4_queue_order_head_witness :
    (getNextTarget stNoCoords (some (0, 0, 0))).1 = stNoCoords.pending_systems.head? :=
  c4_queue_order_head stNoCoords (0, 0, 0) rfl rfl (by decide)

/-- Concrete nodes at equal distance from the current position (0,0,0):
`nodeTieA` has the name that is earlier in name ordering, `nodeTieB`
comes earlier in the queue. -/
def nodeTieA : SystemNode := ⟨"AA", none, 1, 0, 0, 1⟩

def nodeTieB : SystemNode := ⟨"BB", none, -1, 0, 0, 1⟩

def stTie : SurveyState :=
  { initialState with
    active := true
    start_system := some "Sol"
    start_coords := some (0, 0, 0)
    prefer_short_jumps := true
    max_jump_ly := none
    pending_systems := [nodeTieB, nodeTieA]
    visited_names := {"Sol"} }

/-- C8 counterexample: both candidates are at equal (squared) distance 1
from the current position and `"AA" < "BB"` in name ordering, yet
`_get_next_target` returns `nodeTieB` — the one earlier in the queue —
because Python's stable sort keeps the queue order on ties; ties are NOT
broken by name ordering. -/
theorem c8_counterexample :
    distFromCurrentSq (0, 0, 0) nodeTieA = distFromCurrentSq (0, 0, 0) nodeTieB ∧
    nodeTieA.name < nodeTieB.name ∧
    (getNextTarget stTie (some (0, 0, 0))).1 = some nodeTieB ∧
    nodeTieB ≠ nodeTieA := by
  refine ⟨by with_unfolding_all decide, ?_, by with_unfolding_all decide,
    by with_unfolding_all decide⟩
  show nodeTieA.name < nodeTieB.name
  rw [String.lt_iff_toList_lt]
  decide

/-- C8 amended: under the nearest-to-current policy the chosen target is a
candidate of minimal squared distance from the current position, and when
several candidates are at the minimal distance the one *earliest in the
candidate-list (queue) order* is chosen — the selection is deterministic,
with ties broken by queue position (stable sort), not by name. -/
theorem c8_nearest_tiebreak (st : SurveyState) (c : ℚ × ℚ × ℚ)
    (ha : st.active = true) (hp : st.prefer_short_jumps = true)
    (hne : st.pending_systems ≠ []) :
    ∃ t, (getNextTarget st (some c)).1 = some t ∧ t ∈ (candidates st c).1 ∧
      (∀ u ∈ (candidates st c).1, distFromCurrentSq c t ≤ distFromCurrentSq c u) ∧
      ∃ i, ((candidates st c).1)[i]? = some t ∧
        ∀ u ∈ ((candidates st c).1).take i,
          distFromCurrentSq c t < distFromCurrentSq c u := by
  have hcne : (candidates st c).1 ≠ [] := candidates_ne_nil hne
  obtain ⟨t, ht⟩ := firstMin_isSome (distFromCurrentSq c) hcne
  exact ⟨t, by rw [getNextTarget_fst st c hp hne]; exact ht,
    firstMin_mem ht, firstMin_min ht, firstMin_earliest ht⟩

theorem c8_nearest_tiebreak_witness :
    ∃ t, (getNextTarget stTie (some (0, 0, 0))).1 = some t ∧
      t ∈ (candidates stTie (0, 0, 0)).1 ∧
      (∀ u ∈ (candidates stTie (0, 0, 0)).1,
        distFromCurrentSq (0, 0, 0) t ≤ distFromCurrentSq (0, 0, 0) u) ∧
      ∃ i, ((candidates stTie (0, 0, 0)).1)[i]? = some t ∧
        ∀ u ∈ ((candidates stTie (0, 0, 0)).1).take i,
          distFromCurrentSq (0, 0, 0) t < distFromCurrentSq (0, 0, 0) u :=
  c8_nearest_tiebreak stTie (0, 0, 0) rfl rfl (by decide)

/-- The per-system JSON object written by `_save_state` — exactly the six
dataclass fields of `SystemNode`. -/
structure PersistedNode where
  name : String
  id64 : Option Int
  x : ℚ
  y : ℚ
  z : ℚ
  distance : ℚ
deriving DecidableEq

/-- The JSON object written by `_save_state`: sets become arrays, the
coordinate tuple becomes an array, dicts keep their insertion order. -/
structure PersistedState where
  active : Bool
  start_system : Option String
  start_coords : Option (List ℚ)
  radius_ly : ℚ
  max_jump_ly : Option ℚ
  prefer_short_jumps : Bool
  pending_systems : List PersistedNode
  visited_ids : List Int
  visited_names : List String
  all_systems : List (String × PersistedNode)
  started_ts : Option ℚ
  data_source_used : Option String
deriving DecidableEq

def nodeToRecord (s : SystemNode) : PersistedNode :=
  ⟨s.name, s.id64, s.x, s.y, s.z, s.distance⟩

def recordToNode (s : PersistedNode) : SystemNode :=
  ⟨s.name, s.id64, s.x, s.y, s.z, s.distance⟩

/-- `_save_state()` from `load.py` (the `data` dictionary it writes):
`list(start_coords) if start_coords else None`, sets listed (CPython lists
a set in an unspecified order; the model lists it in ascending order —
`_load_state` rebuilds the set, so the order is irrelevant), the queue and
the discovered dict serialized entry by entry. -/
def saveState (st : SurveyState) : PersistedState :=
  { active := st.active
    start_system := st.start_system
    start_coords := st.start_coords.map fun c => [c.1, c.2.1, c.2.2]
    radius_ly := st.radius_ly
    max_jump_ly := st.max_jump_ly
    prefer_short_jumps := st.prefer_short_jumps
    pending_systems := st.pending_systems.map nodeToRecord
    visited_ids := st.visited_ids.sort (· ≤ ·)
    visited_names := st.visited_names.sort (· ≤ ·)
    all_systems := st.all_systems.map fun p => (p.1, nodeToRecord p.2)
    started_ts := st.started_ts
    data_source_used := st.data_source_used }

/-- `tuple(coords) if coords else None` in `_load_state`: a 3-element array
becomes the coordinate tuple; an absent or empty (falsy) value becomes
`None`.  (Saved states only ever contain `None` or a 3-element array.) -/
def loadCoords : Option (List ℚ) → Option (ℚ × ℚ × ℚ)
  | some [a, b, c] => some (a, b, c)
  | _ => none

/-- `_load_state()` from `load.py`: rebuilds every field of the state from
the persisted record (`SystemNode(**s)` per entry, `set(...)` on the id and
name arrays). -/
def loadState (d : PersistedState) : SurveyState :=
  { active := d.active
    start_system := d.start_system
    start_coords := loadCoords d.start_coords
    radius_ly := d.radius_ly
    max_jump_ly := d.max_jump_ly
    prefer_short_jumps := d.prefer_short_jumps
    pending_systems := d.pending_systems.map recordToNode
    visited_ids := d.visited_ids.toFinset
    visited_names := d.visited_names.toFinset
    all_systems := d.all_systems.map fun p => (p.1, recordToNode p.2)
    started_ts := d.started_ts
    data_source_used := d.data_source_used }

/-- C6: persistence round-trips — for every `SurveyState` (in particular
every reachable one), `_load_state` applied to the record written by
`_save_state` restores a state equal to the original in every field:
active flag, origin name and coordinates, radius, jump cutoff, policy flag,
pending queue contents and order, visited id and name sets, discovered
map, timestamp and source name. -/
theorem c6_persistence_roundtrip (st : SurveyState) :
    loadState (saveState st) = st := by
  unfold loadState saveState
  obtain ⟨ac, ss, sc, rl, mj, ps, pend, vi, vn, al, ts, ds⟩ := st
  simp only [List.map_map, Finset.sort_toFinset]
  congr 1
  · cases sc with
    | none => rfl
    | some c => obtain ⟨a, b, c⟩ := c; rfl
  · exact List.map_id pend
  · exact List.map_id al

/-- The observable behaviour of one adapter call
(`source.get_systems_near(...)`): it either raises, or returns `None`, or
returns a list. -/
inductive FetchOutcome where
  | raises
  | ok (r : Option (List SystemNode))
deriving DecidableEq

/-- One data-source adapter as the Source Manager sees it: its dict key in
`self.sources`, its `get_name()`, `get_priority()`, `is_available()` and
the outcome of calling it for the query at hand. -/
structure Source where
  key : String
  displayName : String
  priority : Int
  available : Bool
  outcome : FetchOutcome
deriving DecidableEq

/-- The lexicographic order `available.sort()` uses on the tuples
`(priority, name, source)`: priorities first, dict keys break ties (dict
keys are unique, so the third component is never compared). -/
def srcLe (a b : Source) : Prop :=
  a.priority < b.priority ∨ (a.priority = b.priority ∧ a.key ≤ b.key)

instance : DecidableRel srcLe := fun a b => by unfold srcLe; infer_instance

/-- `available.sort()` in `get_systems_near` (Python's stable sort). -/
def sortSources (l : List Source) : List Source :=
  l.insertionSort srcLe

/-- The preferred adapter, tried first when it is named, known and
available (`if prefer_source and prefer_source in self.sources` followed by
the availability check). -/
def preferredList (sources : List Source) (prefer : Option String) : List Source :=
  if truthyStr prefer then
    match sources.find? fun s => decide (some s.key = prefer) with
    | some s => if s.available then [s] else []
    | none => []
  else []

/-- The remaining adapters: available and with a key different from
`prefer_source`, in ascending `(priority, key)` order. -/
def restList (sources : List Source) (prefer : Option String) : List Source :=
  sortSources (sources.filter fun s => s.available && !decide (some s.key = prefer))

/-- `sources_to_try` as built by `DataSourceManager.get_systems_near`. -/
def sourcesToTry (sources : List Source) (prefer : Option String) : List Source :=
  preferredList sources prefer ++ restList sources prefer

/-- The try-each loop of `get_systems_near`: an adapter that raises is
logged and skipped, a `None` or empty result is logged and skipped, the
first non-empty result is returned together with the adapter's display
name. -/
def tryEach : List Source → Option (List SystemNode) × Option String
  | [] => (none, none)
  | s :: rest =>
    match s.outcome with
    | .raises => tryEach rest
    | .ok none => tryEach rest
    | .ok (some l) => if l.isEmpty then tryEach rest else (some l, some s.displayName)

/-- `DataSourceManager.get_systems_near(...)` from `load.py`. -/
def managerFetch (sources : List Source) (prefer : Option String) :
    Option (List SystemNode) × Option String :=
  let toTry := sourcesToTry sources prefer
  if toTry.isEmpty then (none, none) else tryEach toTry

/-- An adapter call "succeeds" when it neither raises nor returns `None`
or an empty list. -/
def succeeds (s : Source) : Bool :=
  match s.outcome with
  | .ok (some l) => !l.isEmpty
  | _ => false

def resultOf (s : Source) : Option (List SystemNode) :=
  match s.outcome with
  | .ok (some l) => some l
  | _ => none

/-- Modelled from the spec words for `fetch`: try the adapters in order,
stop at the first one returning a non-empty result and return that result
with that adapter's name; `(none, none)` if every adapter fails or returns
empty. -/
def managerFetchSpec (sources : List Source) (prefer : Option String) :
    Option (List SystemNode) × Option String :=
  match (sourcesToTry sources prefer).find? succeeds with
  | some s => (resultOf s, some s.displayName)
  | none => (none, none)

theorem tryEach_eq_spec (l : List Source) :
    tryEach l =
      match l.find? succeeds with
      | some s => (resultOf s, some s.displayName)
      | none => (none, none) := by
  induction l with
  | nil => rfl
  | cons s rest ih =>
    cases ho : s.outcome with
    | raises =>
      have hs : succeeds s = false := by simp [succeeds, ho]
      simp [tryEach, ho, List.find?, hs, ih]
    | ok r =>
      cases r with
      | none =>
        have hs : succeeds s = false := by simp [succeeds, ho]
        simp [tryEach, ho, List.find?, hs, ih]
      | some res =>
        by_cases he : res.isEmpty
        · have hs : succeeds s = false := by simp [succeeds, ho, he]
          simp [tryEach, ho, he, List.find?, hs, ih]
        · have hs : succeeds s = true := by
            simp only [succeeds, ho]
            simpa using he
          simp [tryEach, ho, he, List.find?, hs, resultOf]

/-- C2: for every adapter set and preference, `get_systems_near` tries the
adapters in the `sources_to_try` order (preferred first if named and
available, then the others ascending by priority with dict-key tie-break),
treats an adapter that raises as a failure and moves on, stops at the
first adapter returning a non-empty result (returning that result and
that adapter's name), and returns `(none, none)` if every adapter fails or
returns empty — moreover only available adapters are ever attempted, and
the non-preferred part of the order is ascending in priority. -/
theorem c2_manager_fallback (sources : List Source) (prefer : Option String) :
    managerFetch sources prefer = managerFetchSpec sources prefer ∧
    (∀ s ∈ sourcesToTry sources prefer, s.available = true) ∧
    List.Pairwise (fun a b => a.priority ≤ b.priority) (restList sources prefer) := by
  refine ⟨?_, ?_, ?_⟩
  · unfold managerFetch managerFetchSpec
    by_cases h : (sourcesToTry sources prefer).isEmpty
    · rw [List.isEmpty_iff] at h
      simp [h, List.find?]
    · simp only [h]
      simp only [Bool.false_eq_true, if_false]
      exact tryEach_eq_spec _
  · intro s hs
    rcases List.mem_append.mp hs with hp | hr
    · unfold preferredList at hp
      split at hp
      · split at hp
        · rename_i t _
          split at hp
          · rcases List.mem_singleton.mp hp with rfl
            assumption
          · simp at hp
        · simp at hp
      · simp at hp
    · unfold restList sortSources at hr
      rw [List.mem_insertionSort] at hr
      have := List.of_mem_filter hr
      simp only [Bool.and_eq_true] at this
      exact this.1
  · have htot : Total srcLe := by
      intro a b
      unfold srcLe
      rcases lt_trichotomy a.priority b.priority with h | h | h
      · exact Or.inl (Or.inl h)
      · rcases le_total a.key b.key with hk | hk
        · exact Or.inl (Or.inr ⟨h, hk⟩)
        · exact Or.inr (Or.inr ⟨h.symm, hk⟩)
      · exact Or.inr (Or.inl h)
    have htr : Transitive srcLe := by
      intro a b c hab hbc
      unfold srcLe at *
      rcases hab with h1 | ⟨h1, h1k⟩ <;> rcases hbc with h2 | ⟨h2, h2k⟩
      · exact Or.inl (h1.trans h2)
      · exact Or.inl (h2 ▸ h1)
      · exact Or.inl (h1 ▸ h2)
      · exact Or.inr ⟨h1.trans h2, h1k.trans h2k⟩
    have hsorted : List.Sorted srcLe (restList sources prefer) := by
      unfold restList sortSources
      haveI : IsTotal Source srcLe := ⟨htot⟩
      haveI : IsTrans Source srcLe := ⟨htr⟩
      exact List.sorted_insertionSort srcLe _
    exact hsorted.imp fun h => by
      rcases h with h | ⟨h, _⟩
      · exact le_of_lt h
      · exact le_of_eq h

/-- Three concrete adapters for the C2 witness: the preferred one is
unavailable, the first available one returns an empty result, the second
raises, the third succeeds. -/
def srcLocal : Source := ⟨"local_json", "Local JSON", 0, false, .ok none⟩

def srcEdd : Source := ⟨"edd", "EDDiscovery", 0, true, .raises⟩

def srcEdsm : Source := ⟨"edsm", "EDSM", 2, true, .ok (some [nodeA])⟩

theorem c2_manager_fallback_witness :
    managerFetch [srcLocal, srcEdd, srcEdsm] (some "local_json") =
      managerFetchSpec [srcLocal, srcEdd, srcEdsm] (some "local_json") ∧
    srcEdd.available = true :=
  ⟨(c2_manager_fallback [srcLocal, srcEdd, srcEdsm] (some "local_json")).1,
    (c2_manager_fallback [srcLocal, srcEdd, srcEdsm] (some "local_json")).2.1 srcEdd
      (by with_unfolding_all decide)⟩

/-- Python `dict` insertion: replace the value in place when the key is
already present, append otherwise. -/
def dictInsert (d : List (String × SystemNode)) (k : String) (v : SystemNode) :
    List (String × SystemNode) :=
  if d.any fun p => decide (p.1 = k) then
    d.map fun p => if p.1 = k then (k, v) else p
  else d ++ [(k, v)]

/-- The dict comprehension over the fetched systems:
`{s.name: s for s in systems}` (later entries overwrite earlier ones). -/
def dictOfSystems (l : List SystemNode) : List (String × SystemNode) :=
  l.foldl (fun d s => dictInsert d s.name s) []

/-- The module-level globals of `load.py` relevant to the session:
`_state`, `_current_system`, `_current_system_id`, `_current_coords`. -/
structure GState where
  state : SurveyState
  curSystem : Option String
  curSystemId : Option Int
  curCoords : Option (ℚ × ℚ × ℚ)
deriving DecidableEq

/-- The operations that drive the session state machine.  `start` carries
the environment the code reads when it runs: the configured radius and
policy flag, the current jump-range estimate, the wall-clock time, and the
(synchronously modelled) result of the Source-Manager fetch.  `location`
is a `Location`/`FSDJump`/`CarrierJump` journal event (the visit
notification); `monitorUpdate` is `_update_current_location_from_monitor`
(it touches only the position globals, never the `SurveyState`). -/
inductive Op where
  | start (radius : ℚ) (preferShort : Bool) (maxJump : Option ℚ) (ts : ℚ)
      (fetch : Option (List SystemNode × String))
  | location (sys : Option String) (sid : Option Int) (coords : Option (ℚ × ℚ × ℚ))
  | monitorUpdate (sys : Option String) (sid : Option Int)
      (coords : Option (ℚ × ℚ × ℚ))
  | stop
  | reset

/-- The session state right after a successful `query_systems` completion
in `_start_survey` (the reset state with the session parameters filled in,
the discovered dict and queue stored, the start system marked visited —
into the freshly emptied visited sets — and filtered out of the queue by
name), after the post-start `_get_next_target` call (from the UI refresh
and auto-copy path) has possibly reordered the live queue. -/
def startSuccessState (gs : GState) (radius : ℚ) (preferShort : Bool)
    (maxJump : Option ℚ) (ts : ℚ) (systems : List SystemNode) (srcName : String) :
    SurveyState :=
  { active := true
    start_system := gs.curSystem
    start_coords := gs.curCoords
    radius_ly := radius
    max_jump_ly := maxJump
    prefer_short_jumps := preferShort
    pending_systems :=
      (getNextTarget (startQueueState gs radius preferShort maxJump ts systems srcName)
        gs.curCoords).2
    visited_ids :=
      match gs.curSystemId with
      | some i => if i != 0 then {i} else ∅
      | none => ∅
    visited_names := {gs.curSystem.getD ""}
    all_systems := dictOfSystems systems
    started_ts := some ts
    data_source_used := some srcName }
where
  /-- The same state just before the post-start `_get_next_target` call. -/
  startQueueState (gs : GState) (radius : ℚ) (preferShort : Bool)
      (maxJump : Option ℚ) (ts : ℚ) (systems : List SystemNode) (srcName : String) :
      SurveyState :=
    { active := true
      start_system := gs.curSystem
      start_coords := gs.curCoords
      radius_ly := radius
      max_jump_ly := maxJump
      prefer_short_jumps := preferShort
      pending_systems := systems.filter fun s => !decide (s.name = gs.curSystem.getD "")
      visited_ids :=
        match gs.curSystemId with
        | some i => if i != 0 then {i} else ∅
        | none => ∅
      visited_names := {gs.curSystem.getD ""}
      all_systems := dictOfSystems systems
      started_ts := some ts
      data_source_used := some srcName }

/-- The state `_start_survey` installs synchronously before the fetch:
`_state.reset()` followed by the session parameters. -/
def startParamState (gs : GState) (radius : ℚ) (preferShort : Bool)
    (maxJump : Option ℚ) (ts : ℚ) : SurveyState :=
  { gs.state.reset with
    active := true
    start_system := gs.curSystem
    start_coords := gs.curCoords
    radius_ly := radius
    max_jump_ly := maxJump
    prefer_short_jumps := preferShort
    started_ts := some ts }

/-- `_start_survey` from `load.py` together with its `query_systems`
completion (modelled synchronously): guard on a truthy current system and
known coordinates (`if not _current_system or not _current_coords` — the
state is untouched when the guard fires); reset the state and fill in the
session parameters; on fetch failure (`None` or empty result) reset back
to idle; on success install `startSuccessState`. -/
def stepStart (gs : GState) (radius : ℚ) (preferShort : Bool) (maxJump : Option ℚ)
    (ts : ℚ) (fetch : Option (List SystemNode × String)) : GState :=
  if truthyStr gs.curSystem = false ∨ gs.curCoords = none then gs
  else
    match fetch with
    | none =>
      { gs with state := (startParamState gs radius preferShort maxJump ts).reset }
    | some (systems, srcName) =>
      if systems.isEmpty then
        { gs with state := (startParamState gs radius preferShort maxJump ts).reset }
      else
        { gs with state := startSuccessState gs radius preferShort maxJump ts systems srcName }

/-- The state `_mark_visited` leaves behind, after the follow-up
`_get_next_target` call (for the clipboard and the UI refresh) has
possibly reordered the live queue. -/
def visitState (st : SurveyState) (n : String) (sid : Option Int)
    (cc : Option (ℚ × ℚ × ℚ)) : SurveyState :=
  { markVisited st n sid with
    pending_systems := (getNextTarget (markVisited st n sid) cc).2 }

/-- The `Location`/`FSDJump`/`CarrierJump` branch of `journal_entry`:
update the position globals (coordinates only when present), and if a
survey is active and the system name truthy, `_mark_visited` followed by
the `_get_next_target` call. -/
def updCoords (gs : GState) (coords : Option (ℚ × ℚ × ℚ)) : Option (ℚ × ℚ × ℚ) :=
  match coords with
  | some c => some c
  | none => gs.curCoords

def stepLocation (gs : GState) (sys : Option String) (sid : Option Int)
    (coords : Option (ℚ × ℚ × ℚ)) : GState :=
  if gs.state.active && truthyStr sys then
    { state := visitState gs.state (sys.getD "") sid (updCoords gs coords)
      curSystem := sys
      curSystemId := sid
      curCoords := updCoords gs coords }
  else
    { state := gs.state
      curSystem := sys
      curSystemId := sid
      curCoords := updCoords gs coords }

/-- `_update_current_location_from_monitor`: each global is updated only
when the monitor offers a truthy value for it; the `SurveyState` is never
touched. -/
def stepMonitor (gs : GState) (sys : Option String) (sid : Option Int)
    (coords : Option (ℚ × ℚ × ℚ)) : GState :=
  { gs with
    curSystem := if truthyStr sys then sys else gs.curSystem
    curSystemId := if truthyInt sid then sid else gs.curSystemId
    curCoords :=
      match coords with
      | some c => some c
      | none => gs.curCoords }

/-- One step of the session state machine (`_start_survey`, the journal
location handler, the monitor refresh, `_stop_survey`, `_reset_survey`). -/
def step (gs : GState) : Op → GState
  | .start r p mj ts f => stepStart gs r p mj ts f
  | .location s i c => stepLocation gs s i c
  | .monitorUpdate s i c => stepMonitor gs s i c
  | .stop => { gs with state := { gs.state with active := false } }
  | .reset => { gs with state := gs.state.reset }

/-- The plugin's initial global state: default `SurveyState`, no known
position. -/
def initGState : GState := ⟨initialState, none, none, none⟩

/-- Running a finite sequence of operations from the initial state. -/
def run (ops : List Op) : GState := ops.foldl step initGState

/-- The C1 invariant: no pending system's name is in `visited_names`, and
while a session is active the origin's name is not in the pending queue. -/
def Inv (gs : GState) : Prop :=
  (∀ s ∈ gs.state.pending_systems, s.name ∉ gs.state.visited_names) ∧
  (gs.state.active = true →
    ∀ s ∈ gs.state.pending_systems, gs.state.start_system ≠ some s.name)

theorem candidates_subset (st : SurveyState) (c : ℚ × ℚ × ℚ) :
    ∀ s ∈ (candidates st c).1, s ∈ st.pending_systems := by
  intro s hs
  unfold candidates at hs
  cases hfl : jumpFilter st c with
  | none => rw [hfl] at hs; exact hs
  | some fl =>
    rw [hfl] at hs
    by_cases he : fl.isEmpty
    · simp only [he, if_true] at hs
      exact hs
    · simp only [he, Bool.false_eq_true, if_false] at hs
      unfold jumpFilter at hfl
      split at hfl
      · split at hfl
        · simp only [Option.some_inj] at hfl
          subst hfl
          exact (List.mem_filter.mp hs).1
        · exact absurd hfl (by simp)
      · exact absurd hfl (by simp)

theorem getNextTarget_queue_cases (st : SurveyState) (cur : Option (ℚ × ℚ × ℚ)) :
    (getNextTarget st cur).2 = st.pending_systems ∨
      ∃ c, cur = some c ∧
        (getNextTarget st cur).2 = sortByKey (distFromCurrentSq c) (candidates st c).1 := by
  unfold getNextTarget
  split
  · exact Or.inl rfl
  · cases cur with
    | none => exact Or.inl rfl
    | some c =>
      by_cases hp : st.prefer_short_jumps
      · by_cases ha : (candidates st c).2
        · refine Or.inr ⟨c, rfl, ?_⟩
          simp [hp, ha]
        · refine Or.inl ?_
          simp [hp, ha]
      · refine Or.inl ?_
        simp [hp]

theorem getNextTarget_queue_subset (st : SurveyState) (cur : Option (ℚ × ℚ × ℚ)) :
    ∀ s ∈ (getNextTarget st cur).2, s ∈ st.pending_systems := by
  intro s hs
  rcases getNextTarget_queue_cases st cur with h | ⟨c, _, h⟩
  · rw [h] at hs; exact hs
  · rw [h, mem_sortByKey] at hs
    exact candidates_subset st c s hs

theorem markVisited_subset (st : SurveyState) (n : String) (sid : Option Int) :
    ∀ s ∈ (markVisited st n sid).pending_systems,
      s ∈ st.pending_systems ∧ s.name ≠ n := by
  intro s hs
  unfold markVisited at hs
  simp only at hs
  have h := List.mem_filter.mp hs
  refine ⟨h.1, ?_⟩
  have := h.2
  simp only [Bool.and_eq_true, Bool.not_eq_true] at this
  simpa using this.1

theorem step_preserves_Inv (gs : GState) (op : Op) (h : Inv gs) : Inv (step gs op) := by
  obtain ⟨h1, h2⟩ := h
  cases op with
  | start r p mj ts f =>
    show Inv (stepStart gs r p mj ts f)
    unfold stepStart
    split
    · exact ⟨h1, h2⟩
    · rename_i hg
      have hpend : ∀ {systems : List SystemNode} {srcName : String},
          ∀ s ∈ (startSuccessState gs r p mj ts systems srcName).pending_systems,
            s.name ≠ gs.curSystem.getD "" := by
        intro systems srcName s hs
        have hs2 := getNextTarget_queue_subset
          (startSuccessState.startQueueState gs r p mj ts systems srcName) gs.curCoords s hs
        have hs3 := List.mem_filter.mp hs2
        simpa using hs3.2
      split
      · exact ⟨by simp [SurveyState.reset], by simp [SurveyState.reset]⟩
      · rename_i systems srcName
        split
        · exact ⟨by simp [SurveyState.reset], by simp [SurveyState.reset]⟩
        · constructor
          · intro s hs
            have hname := hpend s hs
            show s.name ∉ ({gs.curSystem.getD ""} : Finset String)
            simpa using hname
          · intro _ s hs
            have hname := hpend s hs
            show gs.curSystem ≠ some s.name
            push_neg at hg
            obtain ⟨hg1, _⟩ := hg
            cases hc : gs.curSystem with
            | none => rw [hc] at hg1; simp [truthyStr] at hg1
            | some cn =>
              rw [hc] at hname
              simp only [Option.getD_some] at hname
              intro hcontra
              simp only [Option.some_inj] at hcontra
              exact hname hcontra.symm
  | location sys sid coords =>
    show Inv (stepLocation gs sys sid coords)
    unfold stepLocation
    split
    · rename_i hact
      simp only [Bool.and_eq_true] at hact
      constructor
      · intro s hs
        have hs2 := getNextTarget_queue_subset (markVisited gs.state (sys.getD "") sid) _ s hs
        obtain ⟨hmem, hname⟩ := markVisited_subset _ _ _ s hs2
        show s.name ∉ (markVisited gs.state (sys.getD "") sid).visited_names
        unfold markVisited
        simp only
        intro hcontra
        rcases Finset.mem_insert.mp hcontra with heq | hin
        · exact hname heq
        · exact h1 s hmem hin
      · intro _ s hs
        have hs2 := getNextTarget_queue_subset (markVisited gs.state (sys.getD "") sid) _ s hs
        obtain ⟨hmem, _⟩ := markVisited_subset _ _ _ s hs2
        show gs.state.start_system ≠ some s.name
        exact h2 hact.1 s hmem
    · exact ⟨h1, h2⟩
  | monitorUpdate sys sid coords => exact ⟨h1, h2⟩
  | stop =>
    show Inv { gs with state := { gs.state with active := false } }
    refine ⟨h1, ?_⟩
    intro hact
    simp at hact
  | reset =>
    show Inv { gs with state := gs.state.reset }
    exact ⟨by simp [SurveyState.reset], by simp [SurveyState.reset]⟩

theorem foldl_Inv (ops : List Op) : ∀ gs : GState, Inv gs → Inv (ops.foldl step gs) := by
  induction ops with
  | nil => exact fun gs h => h
  | cons op rest ih => exact fun gs h => ih _ (step_preserves_Inv _ _ h)

theorem run_Inv (ops : List Op) : Inv (run ops) :=
  foldl_Inv ops initGState
    ⟨by simp [initGState, initialState], by simp [initGState, initialState]⟩

/-- C1: after any finite sequence of operations (start, visit/location,
monitor refresh, stop, reset) the set of names in the pending queue is
disjoint from `visited_names`, and while a session is active the origin
system's name is never an element of the pending queue. -/
theorem c1_invariants (ops : List Op) :
    (∀ s ∈ (run ops).state.pending_systems,
      s.name ∉ (run ops).state.visited_names) ∧
    ((run ops).state.active = true →
      ∀ s ∈ (run ops).state.pending_systems,
        (run ops).state.start_system ≠ some s.name) :=
  run_Inv ops

/-- A second concrete node, 20 ly from the origin on the x axis. -/
def nodeB : SystemNode := ⟨"Beta", some 12, 20, 0, 0, 400⟩

/-- A concrete trace: detect the position, start a survey that discovers
two systems, then jump to the first of them. -/
def c1trace : List Op :=
  [.monitorUpdate (some "Sol") (some 1) (some (0, 0, 0)),
   .start 50 true none 0 (some ([nodeA, nodeB], "EDSM")),
   .location (some "Alpha") (some 11) (some (10, 0, 0))]

theorem c1_invariants_witness :
    (run c1trace).state.active = true ∧
    (∀ s ∈ (run c1trace).state.pending_systems,
      s.name ∉ (run c1trace).state.visited_names) ∧
    (∀ s ∈ (run c1trace).state.pending_systems,
      (run c1trace).state.start_system ≠ some s.name) :=
  ⟨by with_unfolding_all decide, (c1_invariants c1trace).1,
    (c1_invariants c1trace).2 (by with_unfolding_all decide)⟩

/-- C9: if, after the monitor refresh, there is still no truthy current
system or no known current coordinates when `_start_survey` runs, the call
fails on its guard (the no-origin error path), the session does not become
Active, and the whole global state — in particular the `SurveyState` — is
left entirely unchanged. -/
theorem c9_no_origin_unchanged (gs : GState) (r : ℚ) (p : Bool) (mj : Option ℚ)
    (ts : ℚ) (f : Option (List SystemNode × String))
    (h : truthyStr gs.curSystem = false ∨ gs.curCoords = none) :
    step gs (.start r p mj ts f) = gs := by
  show stepStart gs r p mj ts f = gs
  unfold stepStart
  rw [if_pos h]

theorem c9_no_origin_unchanged_witness :
    step initGState (.start 50 true none 0 (some ([nodeA], "EDSM"))) = initGState :=
  c9_no_origin_unchanged initGState 50 true none 0 (some ([nodeA], "EDSM"))
    (Or.inl rfl)

/-- A concrete trace reaching an active session whose current position has
moved (via a monitor/dashboard refresh, which triggers no visit handling)
since the queue was last ordered. -/
def c10trace : List Op :=
  [.monitorUpdate (some "Sol") (some 1) (some (0, 0, 0)),
   .start 100 true none 0 (some ([nodeA, nodeB], "EDSM")),
   .monitorUpdate (some "Sol") none (some (20, 0, 0))]

/-- C10: `_get_next_target` is not a pure query.  In the reachable active
state `run c10trace` — nearest-to-current policy, no jump-range cutoff
configured — calling it sorts the live pending queue in place by distance
from the current position: the queue afterwards is the sorted list
`[nodeB, nodeA]`, different from its order `[nodeA, nodeB]` before the
call. -/
theorem c10_next_target_reorders :
    (run c10trace).state.active = true ∧
    (run c10trace).state.prefer_short_jumps = true ∧
    (run c10trace).state.max_jump_ly = none ∧
    (run c10trace).curCoords = some (20, 0, 0) ∧
    (run c10trace).state.pending_systems = [nodeA, nodeB] ∧
    (getNextTarget (run c10trace).state (run c10trace).curCoords).2 =
      sortByKey (distFromCurrentSq (20, 0, 0)) (run c10trace).state.pending_systems ∧
    (getNextTarget (run c10trace).state (run c10trace).curCoords).2 = [nodeB, nodeA] ∧
    (getNextTarget (run c10trace).state (run c10trace).curCoords).2 ≠
      (run c10trace).state.pending_systems := by
  with_unfolding_all decide

/-- One raw entry of an EDSM cube-query response, as
`EDSMSource._query_cube_tiled` sees it: `sys.get('name','')` (so an absent
name is the empty string), `sys.get('id64')`, and the `coords` value —
`none` models an entry whose dict has no `coords` key, which the code
skips before any other processing.  (A `float()` parse failure cannot be
represented over `ℚ`; such an entry behaves like an out-of-range one:
it updates the seen-sets but is not appended.) -/
structure RawEntry where
  name : String
  id64 : Option Int
  coords : Option (ℚ × ℚ × ℚ)
deriving DecidableEq

/-- The loop state of `_query_cube_tiled`: `all_systems`, `seen_ids`,
`seen_names`. -/
structure TileAcc where
  systems : List SystemNode
  seenIds : Finset Int
  seenNames : Finset String
deriving DecidableEq

/-- `tiles_needed = max(1, int(math.ceil(radius / 80)))`. -/
def tilesNeeded (radius : ℚ) : Int := max 1 ⌈radius / 80⌉

/-- `range(-tiles_needed, tiles_needed + 1)`. -/
def tileRange (radius : ℚ) : List Int :=
  (List.range (2 * tilesNeeded radius + 1).toNat).map fun n : Nat =>
    (n : Int) - tilesNeeded radius

/-- The cube queries `_query_cube_tiled` issues: one request per tile index
`(tx, ty, tz)`, centred at `(x + 80*tx, y + 80*ty, z + 80*tz)` (80 ly
spacing), each with the fixed cube edge `cube_size = 200`. -/
def cubeRequests (x y z radius : ℚ) : List ((ℚ × ℚ × ℚ) × ℚ) :=
  (tileRange radius).flatMap fun tx : Int =>
    (tileRange radius).flatMap fun ty : Int =>
      (tileRange radius).map fun tz : Int =>
        ((x + 80 * (tx : ℚ), y + 80 * (ty : ℚ), z + 80 * (tz : ℚ)), 200)

/-- `seen_ids.add(sys_id)` guarded by the truthiness of the id. -/
def bumpIds (seen : Finset Int) (id : Option Int) : Finset Int :=
  match id with
  | some i => if i != 0 then insert i seen else seen
  | none => seen

/-- `seen_names.add(sys_name)` guarded by the non-emptiness of the name. -/
def bumpNames (seen : Finset String) (n : String) : Finset String :=
  if n = "" then seen else insert n seen

/-- The body of the tile loop for an entry whose coords are present:
skip when the truthy id was seen or the name was seen; otherwise register
the truthy id and the non-empty name in the seen-sets, compute the true
distance from the query origin, and append the system only when that
distance is within `radius`.  (In the source the seen-sets are updated
before the distance test; both branches below update them, which is the
same thing.) -/
def processCoordEntry (x y z radius : ℚ) (acc : TileAcc) (e : RawEntry)
    (sx sy sz : ℚ) : TileAcc :=
  if truthyInt e.id64 && decide (e.id64.getD 0 ∈ acc.seenIds) then acc
  else if e.name ∈ acc.seenNames then acc
  else if sqLe (sqDist x y z sx sy sz) radius then
    { systems := acc.systems ++
        [⟨e.name, e.id64, sx, sy, sz, sqDist x y z sx sy sz⟩]
      seenIds := bumpIds acc.seenIds e.id64
      seenNames := bumpNames acc.seenNames e.name }
  else
    { acc with
      seenIds := bumpIds acc.seenIds e.id64
      seenNames := bumpNames acc.seenNames e.name }

/-- The per-entry body of the tile loop in `_query_cube_tiled`: an entry
without a `coords` key is skipped before any other processing. -/
def processEntry (x y z radius : ℚ) (acc : TileAcc) (e : RawEntry) : TileAcc :=
  match e.coords with
  | none => acc
  | some (sx, sy, sz) => processCoordEntry x y z radius acc e sx sy sz

/-- One tile of `_query_cube_tiled`: a failed request (non-200 status,
exception, or a response without a recognizable list) contributes nothing;
a successful one is folded entry by entry. -/
def processTile (x y z radius : ℚ)
    (query : (ℚ × ℚ × ℚ) → ℚ → Option (List RawEntry))
    (acc : TileAcc) (req : (ℚ × ℚ × ℚ) × ℚ) : TileAcc :=
  match query req.1 req.2 with
  | none => acc
  | some entries => entries.foldl (processEntry x y z radius) acc

/-- `EDSMSource._query_cube_tiled(x, y, z, radius)` from `load.py`, with
the remote endpoint abstracted as `query` (tile centre and cube edge in,
optional entry list out): fold all tiles, sort the collected systems by
distance, return `None` when nothing was found. -/
def queryCubeTiled (query : (ℚ × ℚ × ℚ) → ℚ → Option (List RawEntry))
    (x y z radius : ℚ) : Option (List SystemNode) :=
  let acc :=
    (cubeRequests x y z radius).foldl (processTile x y z radius query) ⟨[], ∅, ∅⟩
  let sorted := sortByKey (fun s => s.distance) acc.systems
  if sorted.isEmpty then none else some sorted

/-- The cube edge the SPEC claims: `S = min(max(20, 2R), Cmax)` with
`Cmax = 200` (a definition following the spec's words, for comparison with
the code). -/
def specCubeEdge (radius : ℚ) : ℚ := min (max 20 (2 * radius)) 200

/-- C7 counterexample: at radius 50 the spec's tile edge would be
`min(max(20, 100), 200) = 100` at stride 100, but the code issues every
cube request with the fixed edge 200 — the request for tile (1,0,0),
centred 80 ly from the origin, carries edge 200 ≠ 100; the code's stride
is 80, not the claimed `S`. -/
theorem c7_counterexample :
    (((80 : ℚ), (0 : ℚ), (0 : ℚ)), (200 : ℚ)) ∈ cubeRequests 0 0 0 50 ∧
    (200 : ℚ) ≠ specCubeEdge 50 := by
  constructor
  · with_unfolding_all decide
  · with_unfolding_all decide

theorem mem_tileRange {radius : ℚ} {n : Int} :
    n ∈ tileRange radius ↔ -(tilesNeeded radius) ≤ n ∧ n ≤ tilesNeeded radius := by
  have hT : (1 : Int) ≤ tilesNeeded radius := le_max_left _ _
  constructor
  · intro h
    obtain ⟨m, hm, he⟩ := List.mem_map.mp h
    rw [List.mem_range] at hm
    omega
  · intro h
    apply List.mem_map.mpr
    refine ⟨(n + tilesNeeded radius).toNat, ?_, ?_⟩
    · rw [List.mem_range]
      omega
    · omega

theorem mem_cubeRequests {x y z radius : ℚ} {p : (ℚ × ℚ × ℚ) × ℚ} :
    p ∈ cubeRequests x y z radius ↔
      ∃ i j k : Int,
        (-(tilesNeeded radius) ≤ i ∧ i ≤ tilesNeeded radius) ∧
        (-(tilesNeeded radius) ≤ j ∧ j ≤ tilesNeeded radius) ∧
        (-(tilesNeeded radius) ≤ k ∧ k ≤ tilesNeeded radius) ∧
        p = ((x + 80 * (i : ℚ), y + 80 * (j : ℚ), z + 80 * (k : ℚ)), 200) := by
  unfold cubeRequests
  simp only [List.mem_flatMap, List.mem_map, mem_tileRange]
  constructor
  · rintro ⟨i, hi, j, hj, k, hk, rfl⟩
    exact ⟨i, j, k, hi, hj, hk, rfl⟩
  · rintro ⟨i, j, k, hi, hj, hk, rfl⟩
    exact ⟨i, hi, j, hj, k, hk, rfl⟩

/-- A returned system is "good": its stored distance is the true (squared)
distance from the query origin and lies within the radius. -/
def GoodNode (x y z radius : ℚ) (s : SystemNode) : Prop :=
  s.distance = sqDist x y z s.x s.y s.z ∧ sqLe s.distance radius = true

/-- Two systems collide on the deduplication keys: they share a truthy
stable id, or they share a non-empty name. -/
def sameKey (s t : SystemNode) : Prop :=
  (∃ v : Int, v ≠ 0 ∧ s.id64 = some v ∧ t.id64 = some v) ∨
    (s.name = t.name ∧ s.name ≠ "")

theorem sameKey_symm : ∀ {s t : SystemNode}, sameKey s t → sameKey t s := by
  rintro s t (⟨v, hv, h1, h2⟩ | ⟨h1, h2⟩)
  · exact Or.inl ⟨v, hv, h2, h1⟩
  · exact Or.inr ⟨h1.symm, h1 ▸ h2⟩

/-- A system's dedup keys are recorded in the seen-sets. -/
def Registered (acc : TileAcc) (s : SystemNode) : Prop :=
  (∀ v : Int, s.id64 = some v → v ≠ 0 → v ∈ acc.seenIds) ∧
  (s.name ≠ "" → s.name ∈ acc.seenNames)

/-- The loop invariant of `_query_cube_tiled`. -/
def AccInv (x y z radius : ℚ) (acc : TileAcc) : Prop :=
  (∀ s ∈ acc.systems, GoodNode x y z radius s) ∧
  List.Pairwise (fun a b => ¬ sameKey a b) acc.systems ∧
  (∀ s ∈ acc.systems, Registered acc s)

theorem bumpIds_subset (seen : Finset Int) (id : Option Int) :
    seen ⊆ bumpIds seen id := by
  cases id with
  | none => exact Finset.Subset.refl _
  | some i =>
    show seen ⊆ if (i != 0) = true then insert i seen else seen
    split
    · exact Finset.subset_insert _ _
    · exact Finset.Subset.refl _

theorem bumpNames_subset (seen : Finset String) (n : String) :
    seen ⊆ bumpNames seen n := by
  unfold bumpNames
  split
  · exact Finset.Subset.refl _
  · exact Finset.subset_insert _ _

theorem mem_bumpIds_self {seen : Finset Int} {v : Int} (hv : v ≠ 0) :
    v ∈ bumpIds seen (some v) := by
  show v ∈ if (v != 0) = true then insert v seen else seen
  rw [if_pos (by simpa using hv)]
  exact Finset.mem_insert_self _ _

theorem mem_bumpNames_self {seen : Finset String} {n : String} (hn : n ≠ "") :
    n ∈ bumpNames seen n := by
  unfold bumpNames
  rw [if_neg hn]
  exact Finset.mem_insert_self _ _

theorem processCoordEntry_inv (x y z radius : ℚ) (acc : TileAcc) (e : RawEntry)
    (sx sy sz : ℚ) (h : AccInv x y z radius acc) :
    AccInv x y z radius (processCoordEntry x y z radius acc e sx sy sz) := by
  obtain ⟨hgood, hpair, hreg⟩ := h
  unfold processCoordEntry
  by_cases hid : (truthyInt e.id64 && decide (e.id64.getD 0 ∈ acc.seenIds)) = true
  · rw [if_pos hid]
    exact ⟨hgood, hpair, hreg⟩
  · rw [if_neg hid]
    by_cases hnm : e.name ∈ acc.seenNames
    · rw [if_pos hnm]
      exact ⟨hgood, hpair, hreg⟩
    · rw [if_neg hnm]
      have hnotSame : ∀ s ∈ acc.systems,
          ¬ sameKey s ⟨e.name, e.id64, sx, sy, sz, sqDist x y z sx sy sz⟩ := by
        intro s hs hsk
        rcases hsk with ⟨v, hv, hsv, hev⟩ | ⟨hn1, hn2⟩
        · have hvseen : v ∈ acc.seenIds := (hreg s hs).1 v hsv hv
          apply hid
          simp only [Bool.and_eq_true, decide_eq_true_eq]
          constructor
          · simp only at hev
            rw [hev]
            simpa [truthyInt] using hv
          · simp only at hev
            rw [hev]
            simpa using hvseen
        · apply hnm
          simp only at hn1
          rw [← hn1]
          exact (hreg s hs).2 hn2
      by_cases hd : sqLe (sqDist x y z sx sy sz) radius = true
      · rw [if_pos hd]
        refine ⟨?_, ?_, ?_⟩
        · intro s hs
          rcases List.mem_append.mp hs with hs | hs
          · exact hgood s hs
          · rw [List.mem_singleton] at hs
            subst hs
            exact ⟨rfl, hd⟩
        · rw [List.pairwise_append]
          refine ⟨hpair, List.pairwise_singleton _ _, ?_⟩
          intro a ha b hb
          rw [List.mem_singleton] at hb
          subst hb
          exact hnotSame a ha
        · intro s hs
          rcases List.mem_append.mp hs with hs | hs
          · obtain ⟨r1, r2⟩ := hreg s hs
            exact ⟨fun v hv hv0 => bumpIds_subset _ _ (r1 v hv hv0),
              fun hn => bumpNames_subset _ _ (r2 hn)⟩
          · rw [List.mem_singleton] at hs
            subst hs
            constructor
            · intro v hv hv0
              simp only at hv ⊢
              rw [hv]
              exact mem_bumpIds_self hv0
            · intro hn
              simp only at hn ⊢
              exact mem_bumpNames_self hn
      · rw [if_neg hd]
        refine ⟨hgood, hpair, ?_⟩
        intro s hs
        obtain ⟨r1, r2⟩ := hreg s hs
        exact ⟨fun v hv hv0 => bumpIds_subset _ _ (r1 v hv hv0),
          fun hn => bumpNames_subset _ _ (r2 hn)⟩

theorem processEntry_inv (x y z radius : ℚ) (acc : TileAcc) (e : RawEntry)
    (h : AccInv x y z radius acc) :
    AccInv x y z radius (processEntry x y z radius acc e) := by
  unfold processEntry
  rcases hc : e.coords with _ | ⟨sx, sy, sz⟩
  · exact h
  · exact processCoordEntry_inv x y z radius acc e sx sy sz h

theorem foldl_processEntry_inv (x y z radius : ℚ) (entries : List RawEntry) :
    ∀ acc : TileAcc, AccInv x y z radius acc →
      AccInv x y z radius (entries.foldl (processEntry x y z radius) acc) := by
  induction entries with
  | nil => exact fun acc h => h
  | cons e rest ih => exact fun acc h => ih _ (processEntry_inv x y z radius acc e h)

theorem processTile_inv (x y z radius : ℚ)
    (query : (ℚ × ℚ × ℚ) → ℚ → Option (List RawEntry))
    (acc : TileAcc) (req : (ℚ × ℚ × ℚ) × ℚ) (h : AccInv x y z radius acc) :
    AccInv x y z radius (processTile x y z radius query acc req) := by
  unfold processTile
  cases query req.1 req.2 with
  | none => exact h
  | some entries => exact foldl_processEntry_inv x y z radius entries acc h

theorem foldl_processTile_inv (x y z radius : ℚ)
    (query : (ℚ × ℚ × ℚ) → ℚ → Option (List RawEntry))
    (reqs : List ((ℚ × ℚ × ℚ) × ℚ)) :
    ∀ acc : TileAcc, AccInv x y z radius acc →
      AccInv x y z radius (reqs.foldl (processTile x y z radius query) acc) := by
  induction reqs with
  | nil => exact fun acc h => h
  | cons r rest ih => exact fun acc h => ih _ (processTile_inv x y z radius query acc r h)

theorem queryCubeTiled_inv (query : (ℚ × ℚ × ℚ) → ℚ → Option (List RawEntry))
    (x y z radius : ℚ) (res : List SystemNode)
    (h : queryCubeTiled query x y z radius = some res) :
    (∀ s ∈ res, GoodNode x y z radius s) ∧
      List.Pairwise (fun a b => ¬ sameKey a b) res := by
  unfold queryCubeTiled at h
  set acc :=
    (cubeRequests x y z radius).foldl (processTile x y z radius query) ⟨[], ∅, ∅⟩ with hacc
  have hinv : AccInv x y z radius acc :=
    foldl_processTile_inv x y z radius query _ _
      ⟨by simp, List.Pairwise.nil, by simp⟩
  have hperm : List.Perm (sortByKey (fun s : SystemNode => s.distance) acc.systems)
      acc.systems :=
    List.perm_insertionSort _ _
  dsimp only at h
  by_cases he : (sortByKey (fun s : SystemNode => s.distance) acc.systems).isEmpty
  · rw [if_pos he] at h
    exact absurd h (by simp)
  · rw [if_neg he] at h
    simp only [Option.some_inj] at h
    subst h
    constructor
    · intro s hs
      exact hinv.1 s (hperm.mem_iff.mp hs)
    · exact (hperm.pairwise_iff fun hab => fun hk => hab (sameKey_symm hk)).mpr hinv.2.1

/-- C7 amended: for every radius `R` the code's tiled-cube strategy issues
its requests with the FIXED cube edge 200 at stride 80, tiling the index
cube `[-T,T]^3` with `T = max(1, ceil(R/80))` (not edge
`min(max(20,2R),Cmax)` at stride `S` as claimed); across tiles it
deduplicates so that no two returned systems share a truthy stable id or
share a non-empty name; and it computes the true distance from the origin
for every returned candidate and discards any whose distance exceeds `R`. -/
theorem c7_amended_tiling :
    (∀ (x y z radius : ℚ) (p : (ℚ × ℚ × ℚ) × ℚ),
      p ∈ cubeRequests x y z radius ↔
        ∃ i j k : Int,
          (-(tilesNeeded radius) ≤ i ∧ i ≤ tilesNeeded radius) ∧
          (-(tilesNeeded radius) ≤ j ∧ j ≤ tilesNeeded radius) ∧
          (-(tilesNeeded radius) ≤ k ∧ k ≤ tilesNeeded radius) ∧
          p = ((x + 80 * (i : ℚ), y + 80 * (j : ℚ), z + 80 * (k : ℚ)), 200)) ∧
    (∀ (query : (ℚ × ℚ × ℚ) → ℚ → Option (List RawEntry)) (x y z radius : ℚ)
        (res : List SystemNode),
      queryCubeTiled query x y z radius = some res →
        ∀ s ∈ res,
          s.distance = sqDist x y z s.x s.y s.z ∧ sqLe s.distance radius = true) ∧
    (∀ (query : (ℚ × ℚ × ℚ) → ℚ → Option (List RawEntry)) (x y z radius : ℚ)
        (res : List SystemNode),
      queryCubeTiled query x y z radius = some res →
        List.Pairwise (fun a b => ¬ sameKey a b) res) := by
  refine ⟨fun x y z radius p => mem_cubeRequests, ?_, ?_⟩
  · intro query x y z radius res h s hs
    exact (queryCubeTiled_inv query x y z radius res h).1 s hs
  · intro query x y z radius res h
    exact (queryCubeTiled_inv query x y z radius res h).2

/-- A concrete remote for the C7 witness: only the central tile answers;
it returns two entries that collide on the (non-empty) name — the second
is deduplicated away — and one entry beyond the 50 ly radius, which is
discarded by the distance filter. -/
def q0 : (ℚ × ℚ × ℚ) → ℚ → Option (List RawEntry) := fun c _ =>
  if c = ((0 : ℚ), (0 : ℚ), (0 : ℚ)) then
    some [⟨"Alpha", some 7, some (10, 0, 0)⟩,
          ⟨"Alpha", some 8, some (11, 0, 0)⟩,
          ⟨"Beta", none, some (100, 0, 0)⟩]
  else none

def alphaNode : SystemNode := ⟨"Alpha", some 7, 10, 0, 0, 100⟩

theorem c7_amended_tiling_witness :
    (((0 : ℚ), (0 : ℚ), (0 : ℚ)), (200 : ℚ)) ∈ cubeRequests 0 0 0 50 ∧
    (alphaNode.distance = sqDist 0 0 0 alphaNode.x alphaNode.y alphaNode.z ∧
      sqLe alphaNode.distance 50 = true) ∧
    List.Pairwise (fun a b => ¬ sameKey a b) [alphaNode] :=
  ⟨(c7_amended_tiling.1 0 0 0 50 _).mpr
      ⟨0, 0, 0, by with_unfolding_all decide, by with_unfolding_all decide,
        by with_unfolding_all decide, by norm_num⟩,
    c7_amended_tiling.2.1 q0 0 0 0 50 [alphaNode] (by with_unfolding_all decide)
      alphaNode (List.mem_singleton.mpr rfl),
    c7_amended_tiling.2.2 q0 0 0 0 50 [alphaNode] (by with_unfolding_all decide)⟩

end SphereSurvey
